import Mathlib

/-!
Shallow embedding of `docs/generate_pages.py`.

The script is a one-shot batch transform: it scans tournament directories for
match JSON files, parses their filenames into (tournament, series, game)
identity, groups games into series, computes the series winner with a
`Counter` majority vote, and projects each match into a picks/bans table.

Modelling conventions used throughout this file:
* Python dicts read from JSON become structures whose fields are `Option`s
  (`none` models an absent key); `.get(k, d)` becomes `Option.getD`.
* Python ints are `Int`, floats are modelled as `Rat` (no claim here depends
  on float rounding), strings are `String` / `List Char`.
* Python dicts used as mutable maps (`hero_dict`, `player_map`) are modelled
  as functions `Int → Option β` built by a left fold of `Function.update`,
  which gives exactly the last-write-wins semantics of dict assignment.
* `str.replace` is modelled by `replaceAll` below: replace every
  non-overlapping occurrence, scanning left to right.
* HTML/CSS string templating is out of scope (the spec treats it as an
  external collaborator); where the script builds a cell's markup we keep the
  structured content (`CellC`) that the markup is generated from, and an
  absent table cell (`""` in the script) is modelled as `none`.
-/

namespace GenPages

/-! ### String utilities -/

/-- One step of Python `str.replace`: with `n` units of fuel, replace every
non-overlapping occurrence of `pat` by `rep`, scanning left to right.  The
fuel is only a termination device: `replaceAll` passes `s.length`, which is
enough whenever `pat` is non-empty (every step consumes at least one
character of `s`). -/
def replaceAllFuel (pat rep : List Char) : Nat → List Char → List Char
  | 0, s => s
  | n + 1, s =>
    match s with
    | [] => []
    | c :: rest =>
      if pat.isPrefixOf (c :: rest) then
        rep ++ replaceAllFuel pat rep n ((c :: rest).drop pat.length)
      else
        c :: replaceAllFuel pat rep n rest

/-- Python `s.replace(pat, rep)` on character lists (for non-empty `pat`). -/
def replaceAll (pat rep s : List Char) : List Char :=
  replaceAllFuel pat rep s.length s

/-- Python `s.replace(pat, rep)` on strings. -/
def strReplace (s pat rep : String) : String :=
  ⟨replaceAll pat.data rep.data s.data⟩

/-- Python `pat in s` (substring containment test). -/
def containsSub (pat : List Char) : List Char → Bool
  | [] => pat.isEmpty
  | c :: r => pat.isPrefixOf (c :: r) || containsSub pat r

/-- The function `pretty_team_name_from_body` from the script: four successive
`str.replace` calls, each applied to the result of the previous one. -/
def pretty_team_name_from_body (series_body : String) : String :=
  let s1 := strReplace series_body "_vs_" " vs "
  let s2 := strReplace s1 "_VS_" " vs "
  let s3 := strReplace s2 "_v_" " v "
  strReplace s3 "_" " "

/-- Modelled from the spec: the spec describes the label derivation as
replacing the matchup-separator tokens with first-match-wins priority, where
once one token kind matches no further substitution of the other token kinds
is applied.  This definition follows those words (it is not what the script
does); it exists only to be compared against `pretty_team_name_from_body`. -/
def specPrettyFirstMatchWins (body : String) : String :=
  if containsSub "_vs_".data body.data then strReplace body "_vs_" " vs "
  else if containsSub "_VS_".data body.data then strReplace body "_VS_" " vs "
  else if containsSub "_v_".data body.data then strReplace body "_v_" " v "
  else strReplace body "_" " "

/-- Characters removed by `sanitize_folder_name` (`[\\/:"*?<>|]`). -/
def pathHostile : List Char := ['\\', '/', ':', '"', '*', '?', '<', '>', '|']

/-- The function `sanitize_folder_name` from the script: delete path-hostile characters,
then turn spaces into underscores. -/
def sanitize_folder_name (name : String) : String :=
  ⟨(name.data.filter (fun c => !pathHostile.contains c)).map
    (fun c => if c = ' ' then '_' else c)⟩

/-! ### Hero directory loader -/

/-- One record of the hero table (`heroes.json`).  The script probes the keys
`name`, `localized_name` and `localized`; absent keys are `none`. -/
structure RawHero where
  id : Int
  name : Option String
  localized_name : Option String
  localized : Option String
deriving DecidableEq

/-- Python truthiness-based `a or b` restricted to the string options the
script chains: `None` and `""` are falsy and fall through to `b`. -/
def pyOrStr (a : Option String) (b : String) : String :=
  match a with
  | none => b
  | some s => if s = "" then b else s

/-- The function `clean_hero_filename` from the script. -/
def clean_hero_filename (internal_name : String) : String :=
  strReplace internal_name "npc_dota_hero_" ""

/-- The entry stored in `hero_dict` for one hero. -/
structure HeroEntry where
  image : String
  clean_name : String
  localized_name : String
deriving DecidableEq

/-- The dict value built for one raw hero record.  In the script
`h.get("name", internal_name)` always evaluates to `internal_name` itself
(the default is the value read from the same key), so the `or` chain ends in
`internal_name`. -/
def mkHeroEntry (h : RawHero) : HeroEntry :=
  let internal_name := h.name.getD ""
  let clean_name := clean_hero_filename internal_name
  { image := clean_name ++ ".png"
    clean_name := clean_name
    localized_name := pyOrStr h.localized_name (pyOrStr h.localized internal_name) }

/-- A Python dict built by a loop of `d[key(a)] = val(a)` assignments,
skipping records whose key is absent.  Later assignments overwrite earlier
ones.  (The script keys its dicts by `str(id)`; since `str` is injective on
ints we key directly by the integer.) -/
def pyDictFold {α β : Type} (key : α → Option Int) (val : α → β) (l : List α) :
    Int → Option β :=
  l.foldl
    (fun m a =>
      match key a with
      | none => m
      | some k => Function.update m k (some (val a)))
    (fun _ => none)

/-- The dict `hero_dict` from the script, as a lookup function. -/
def buildHeroDict (hs : List RawHero) : Int → Option HeroEntry :=
  pyDictFold (fun h => some h.id) mkHeroEntry hs

/-- The default entry used by `heroes_map.get(hid_str, ...)` on a miss. -/
def defaultHeroEntry : HeroEntry :=
  { image := "", clean_name := "", localized_name := "Unknown" }

/-- The lookup `heroes_map.get(hid_str, default)`: a `None` hero id turns into the key
`""`, which is never present, hence also yields the default. -/
def heroInfo (hm : Int → Option HeroEntry) (hid : Option Int) : HeroEntry :=
  (hid.bind hm).getD defaultHeroEntry

/-- The display name the pages show for a hero id (the `localized_name`
field of the looked-up entry, `"Unknown"` on a miss). -/
def display_name (hs : List RawHero) (hid : Int) : String :=
  (heroInfo (buildHeroDict hs) (some hid)).localized_name

/-- The icon path the pages show for a hero id (the `image` field of the
looked-up entry, `""` on a miss). -/
def icon_path (hs : List RawHero) (hid : Int) : String :=
  (heroInfo (buildHeroDict hs) (some hid)).image

/-! ### Match record model -/

/-- The benchmark percentiles of one player.  The script reads
`benchmarks.get(metric, {}).get("pct", 0)`; we model the inner `pct` value
directly.  The script's extra truthiness guard `if benchmarks else 0` only
changes the result when `benchmarks` is empty, in which case the `get`
chain yields `0` anyway. -/
structure RawBench where
  last_hits_per_min : Option Rat
  hero_damage_per_min : Option Rat
  tower_damage : Option Rat
deriving DecidableEq

/-- One entry of the raw `players` list. -/
structure RawPlayer where
  hero_id : Option Int
  name : Option String
  kills : Option Int
  deaths : Option Int
  assists : Option Int
  gold_per_min : Option Int
  xp_per_min : Option Int
  lane_efficiency_pct : Option Rat
  benchmarks : Option RawBench
deriving DecidableEq

/-- The stats block stored in `player_map` for one player: the numeric
content of the formatted strings the script builds (`kda`, `gpm_xpm`,
`lane_eff`, `benchmark_str`); the decimal formatting itself is presentation
and out of scope. -/
structure PStats where
  name : String
  kills : Int
  deaths : Int
  assists : Int
  gpm : Int
  xpm : Int
  lane_eff : Rat
  lh_pct : Rat
  hdm_pct : Rat
  tdm_pct : Rat
deriving DecidableEq

/-- The `player_map` value built from one raw player record. -/
def mkStats (p : RawPlayer) : PStats :=
  { name := p.name.getD "Unknown"
    kills := p.kills.getD 0
    deaths := p.deaths.getD 0
    assists := p.assists.getD 0
    gpm := p.gold_per_min.getD 0
    xpm := p.xp_per_min.getD 0
    lane_eff := p.lane_efficiency_pct.getD 0 * 100
    lh_pct := (p.benchmarks.bind (fun b => b.last_hits_per_min)).getD 0 * 100
    hdm_pct := (p.benchmarks.bind (fun b => b.hero_damage_per_min)).getD 0 * 100
    tdm_pct := (p.benchmarks.bind (fun b => b.tower_damage)).getD 0 * 100 }

/-- The dict `player_map` from `generate_match_html`: iterate the raw player list,
skip entries with a `None` hero id, assign the rest keyed by hero id. -/
def buildPlayerMap (ps : List RawPlayer) : Int → Option PStats :=
  pyDictFold (fun p => p.hero_id) mkStats ps

/-- One entry of the raw `picks_bans` list. -/
structure RawPickBan where
  order : Option Int
  is_pick : Option Bool
  team : Option Int
  hero_id : Option Int
deriving DecidableEq

/-- The value `item.get("order", 0)`, the sort key used for `picks_bans`. -/
def orderKey (it : RawPickBan) : Int :=
  it.order.getD 0

/-- One raw match record (the fields of the match JSON the script reads). -/
structure RawMatch where
  radiant_team : Option (Option String)
  dire_team : Option (Option String)
  radiant_win : Option Bool
  players : List RawPlayer
  picks_bans : List RawPickBan
deriving DecidableEq

/-- The read `data.get("radiant_team", {}).get("name", "Radiant")`: the outer `Option`
models a missing `radiant_team` object, the inner one a missing `name`. -/
def radiantName (d : RawMatch) : String :=
  (d.radiant_team.bind id).getD "Radiant"

/-- The read `data.get("dire_team", {}).get("name", "Dire")`. -/
def direName (d : RawMatch) : String :=
  (d.dire_team.bind id).getD "Dire"

/-- The read `data.get("radiant_win", False)`. -/
def radiantWin (d : RawMatch) : Bool :=
  d.radiant_win.getD false

/-- The per-game winner name (`radiant_name if radiant_win else dire_name`). -/
def winnerOf (d : RawMatch) : String :=
  if radiantWin d then radiantName d else direName d

/-- The page title: exactly one side is labelled the winner, the radiant
side iff `radiant_win`. -/
def titleOf (d : RawMatch) : String :=
  if radiantWin d then radiantName d ++ " (Winner) vs " ++ direName d
  else radiantName d ++ " vs " ++ direName d ++ " (Winner)"

/-! ### Filename / identity resolver

The script matches filenames against the anchored, case-insensitive pattern
of `FILENAME_RE`: a non-empty run of non-underscore characters, an
underscore, a lazy non-empty body, then `_G`, at least one digit, and
`.json` at the end.  Because the run of digits is immediately followed by a
literal dot, the regex engine's backtracking over the digit group never
changes the outcome, so taking the maximal digit run is exact; the lazy body
is modelled by taking the first position at which the game tail completes
the string. -/

/-- The numeric value of a run of decimal digit characters. -/
def digitsToNat (ds : List Char) : Nat :=
  ds.foldl (fun n c => n * 10 + (c.toNat - '0'.toNat)) 0

/-- Case-insensitive equality of character lists (for the literal parts of
the pattern under `re.IGNORECASE`). -/
def ciEqList : List Char → List Char → Bool
  | [], [] => true
  | x :: xs, y :: ys => (x.toLower == y.toLower) && ciEqList xs ys
  | _, _ => false

/-- Try to read the whole remainder of a filename as the game tail
`_G<digits>.json` (case-insensitive); return the game number on success. -/
def tailGame : List Char → Option Nat
  | '_' :: g :: rest =>
    if g == 'G' || g == 'g' then
      let ds := rest.takeWhile Char.isDigit
      let rst := rest.dropWhile Char.isDigit
      if !ds.isEmpty && ciEqList rst ".json".data then some (digitsToNat ds) else none
    else none
  | _ => none

/-- Scan for the shortest non-empty body (the lazy `.+?` group): extend the
body one character at a time and stop at the first position where the
remainder is exactly the game tail.  A newline cannot be part of the body
(`.` does not match it), so reaching one fails the scan. -/
def bodyScan (acc : List Char) : List Char → Option (List Char × Nat)
  | [] => none
  | c :: r =>
    if c == '\n' then none
    else
      match tailGame r with
      | some g => some (acc ++ [c], g)
      | none => bodyScan (acc ++ [c]) r

/-- The match `FILENAME_RE.match(fname)`: on success, the leading group, the `body`
group and the parsed game number. -/
def parseFilename (s : List Char) : Option (List Char × List Char × Nat) :=
  let p := s.takeWhile (fun c => c != '_')
  let rest := s.dropWhile (fun c => c != '_')
  if p.isEmpty then none
  else
    match rest with
    | '_' :: r => (bodyScan [] r).map (fun br => (p, br.1, br.2))
    | _ => none

/-- The split `prefix.split(".")[0]`: the leading dot-delimited component. -/
def seriesOrdinalOf (p : List Char) : List Char :=
  p.takeWhile (fun c => c != '.')

/-- The series key `f"{series_id}.{body}"` built from parsed groups. -/
def seriesKeyOf (p body : List Char) : String :=
  ⟨seriesOrdinalOf p ++ '.' :: body⟩

/-- The identity recovered from one match filename. -/
structure SeriesIdentity where
  tournament_id : String
  series_key : String
  game_number : Nat
deriving DecidableEq

/-- The full resolver: filename plus enclosing tournament directory to
identity, `none` for filenames that do not match the pattern. -/
def resolveFilename (tourn fname : String) : Option SeriesIdentity :=
  (parseFilename fname.data).map (fun pbg => ⟨tourn, seriesKeyOf pbg.1 pbg.2.1, pbg.2.2⟩)

/-- The split `series_key.split(".", 1)[1]`: everything after the first dot. -/
def dropThroughFirstDot (s : String) : String :=
  ⟨(s.data.dropWhile (fun c => c != '.')).drop 1⟩

/-! ### Page projector -/

/-- The structured content of one table cell (the data the script
interpolates into the cell's markup): the 1-based display order, whether the
action is a pick, the hero's display name and clean name, and — for picks
only — the stat block when a player was found (`none` models the
`No player info` placeholder; bans never carry a stat block). -/
structure CellC where
  order_num : Int
  is_pick : Bool
  hero_local : String
  hero_clean : String
  player : Option PStats
deriving DecidableEq

/-- The `(order, cell)` record the script builds for one pick/ban item. -/
def mkCell (hm : Int → Option HeroEntry) (pm : Int → Option PStats)
    (it : RawPickBan) : Int × CellC :=
  let hero_info := heroInfo hm it.hero_id
  let isp := it.is_pick.getD false
  (orderKey it,
    { order_num := orderKey it + 1
      is_pick := isp
      hero_local := hero_info.localized_name
      hero_clean := hero_info.clean_name
      player := if isp then it.hero_id.bind pm else none })

/-- The comparison behind `sorted(picks_bans, key=lambda x: x.get("order", 0))`:
Python's stable sort is modelled by the stable `List.mergeSort`. -/
def pbLE (a b : RawPickBan) : Bool :=
  decide (orderKey a ≤ orderKey b)

/-- The parsed draft sequence of one match. -/
def sortedPicksBans (d : RawMatch) : List RawPickBan :=
  d.picks_bans.mergeSort pbLE

/-- The side-partition loop of `generate_match_html`: each item's record is
appended to the radiant list when `item.get("team", 0) == 0` and to the dire
list otherwise. -/
def sideSplit (hm : Int → Option HeroEntry) (pm : Int → Option PStats)
    (pbs : List RawPickBan) : List (Int × CellC) × List (Int × CellC) :=
  pbs.foldl
    (fun acc it =>
      if it.team.getD 0 = 0 then (acc.1 ++ [mkCell hm pm it], acc.2)
      else (acc.1, acc.2 ++ [mkCell hm pm it]))
    ([], [])

/-- The comparison used by the defensive per-side re-sort. -/
def recLE (a b : Int × CellC) : Bool :=
  decide (a.1 ≤ b.1)

/-- The pairwise row construction: `max_rows` rows, row `i` holding side
entry `i` when it exists and an empty cell (`none`) otherwise. -/
def buildRows (ls rs : List (Int × CellC)) : List (Option CellC × Option CellC) :=
  (List.range (Nat.max ls.length rs.length)).map
    (fun i => ((ls.get? i).map Prod.snd, (rs.get? i).map Prod.snd))

/-- The whole table of `generate_match_html` for one match: build the player
map, sort the picks/bans, partition them by side, re-sort each side by
order, and lay the two sides out pairwise. -/
def matchView (hm : Int → Option HeroEntry) (d : RawMatch) :
    List (Option CellC × Option CellC) :=
  let pm := buildPlayerMap d.players
  let sides := sideSplit hm pm (sortedPicksBans d)
  buildRows (sides.1.mergeSort recLE) (sides.2.mergeSort recLE)

/-! ### Series aggregator -/

/-- One `Counter` increment: on a key's first occurrence the pair `(k, 1)` is
appended (Python dicts preserve insertion order); later occurrences bump the
existing count in place. -/
def bump (c : List (String × Nat)) (k : String) : List (String × Nat) :=
  if c.any (fun e => e.1 == k) then
    c.map (fun e => if e.1 = k then (e.1, e.2 + 1) else e)
  else c ++ [(k, 1)]

/-- The counter `winner_counter` after tallying a list of per-game winners. -/
def buildCounter (ws : List String) : List (String × Nat) :=
  ws.foldl bump []

/-- The call `most_common(1)[0]` via Python's `max`: scan the counter items and keep
the current best, replacing it only on a strictly greater count — so the
first-inserted key wins ties. -/
def pyMax : List (String × Nat) → Option (String × Nat)
  | [] => none
  | x :: xs => some (xs.foldl (fun best y => if best.2 < y.2 then y else best) x)

/-- The series winner computed from a list of per-game winner names. -/
def winnerFromCounts (ws : List String) : Option String :=
  (pyMax (buildCounter ws)).map Prod.fst

/-- The per-game metadata the series loop collects for one readable game. -/
structure Meta where
  game_no : Nat
  data : RawMatch
  game_winner : String
  radiant_win : Bool
deriving DecidableEq

/-- The outcome of `load_json` on one game file, as the series loop sees
it.  `failed` is a read or JSON-decode exception: it is caught by the
`except` at lines 252-254, one diagnostic is printed and the loop
continues.  `wrongShape` is valid JSON whose top level is not an object
(a list, number, string or null): `load_json` returns normally, so the
`except` does not fire, and the first field access
`data.get("radiant_team", {})` at line 255 raises an uncaught
`AttributeError` that aborts the entire run.  `record` is a top-level
object, modelled as a `RawMatch`. -/
inductive LoadResult where
  | failed
  | wrongShape
  | record (d : RawMatch)
deriving DecidableEq

/-- The per-series loop body for one game file: skip-and-count on a caught
load failure, collect the metadata of a loaded record, and return `none` —
the uncaught crash aborting the run — on a wrong-shape file. -/
def seriesStep (acc : List Meta × Nat) (g : Nat × LoadResult) :
    Option (List Meta × Nat) :=
  match g.2 with
  | .failed => some (acc.1, acc.2 + 1)
  | .wrongShape => none
  | .record d => some (acc.1 ++ [⟨g.1, d, winnerOf d, radiantWin d⟩], acc.2)

/-- The whole per-series file loop: fold `seriesStep` over the sorted
games, starting from no metadata and zero diagnostics; a `none` from any
step propagates, modelling the abort of the run. -/
def processSeries (gs : List (Nat × LoadResult)) : Option (List Meta × Nat) :=
  gs.foldlM seriesStep ([], 0)

/-- The series winner of the collected games: tally and take `most_common(1)`. -/
def seriesWinner (metas : List Meta) : Option String :=
  winnerFromCounts (metas.map (fun m => m.game_winner))

/-! ### Full pipeline -/

/-- A `defaultdict(list)` append: extend the existing group in place, or append
a new group at the end on a key's first occurrence. -/
def appendGroup {β : Type} (gs : List (String × List β)) (k : String) (v : β) :
    List (String × List β) :=
  if gs.any (fun e => e.1 == k) then
    gs.map (fun e => if e.1 = k then (e.1, e.2 ++ [v]) else e)
  else gs ++ [(k, [v])]

/-- The grouping loop: run every filename through the resolver, skip the
non-matching ones, and group the rest by series key (in first-seen order).
The loop never inspects a file's payload — the script groups file paths and
loads them later — so the payload type is generic. -/
def seriesGroupsOf {γ : Type} (files : List (String × γ)) :
    List (String × List (Nat × γ)) :=
  files.foldl
    (fun gs f =>
      match parseFilename f.1.data with
      | none => gs
      | some pbg => appendGroup gs (seriesKeyOf pbg.1 pbg.2.1) (pbg.2.2, f.2))
    []

/-- The projected output for one game page. -/
structure GameOut where
  game_no : Nat
  title : String
  out_name : String
  rows : List (Option CellC × Option CellC)
deriving DecidableEq

/-- The projected output for one series (folder, index data, game pages). -/
structure SeriesOut where
  series_key : String
  folder : String
  pretty_name : String
  series_winner : String
  games : List GameOut
deriving DecidableEq

/-- The test `f.lower().endswith(".json")`. -/
def lowerEndsWithJson (s : String) : Bool :=
  ".json".data.isSuffixOf (s.data.map Char.toLower)

/-- Comparison for sorting string-keyed listings. -/
def strKeyLE {β : Type} (a b : String × β) : Bool :=
  decide (a.1 ≤ b.1)

/-- Comparison for sorting a series' games by game number. -/
def gameNoLE {β : Type} (a b : Nat × β) : Bool :=
  decide (a.1 ≤ b.1)

/-- The body of the per-series branch: sort the games by game number and
run the load loop.  The outer `none` is the uncaught wrong-shape crash
aborting the whole run; `some none` is a series all of whose games failed
to load, which is skipped (`if per_game_meta:`); `some (some out)` is the
emitted series output with its pretty name, winner, sanitized folder name
and per-game pages. -/
def processOneSeries (hm : Int → Option HeroEntry) (series_key : String)
    (games : List (Nat × LoadResult)) : Option (Option SeriesOut) :=
  (processSeries (games.mergeSort gameNoLE)).map (fun mk =>
    let metas := mk.1
    if metas.isEmpty then none
    else
      let series_body := dropThroughFirstDot series_key
      let winner := (seriesWinner metas).getD ""
      some
        { series_key := series_key
          folder := sanitize_folder_name (series_key ++ "(" ++ winner ++ ")")
          pretty_name := pretty_team_name_from_body series_body
          series_winner := winner
          games :=
            metas.map (fun me =>
              { game_no := me.game_no
                title := titleOf me.data
                out_name :=
                  "Game" ++ toString me.game_no ++ "_"
                    ++ sanitize_folder_name me.game_winner ++ ".html"
                rows := matchView hm me.data }) })

/-- The whole batch transform, from the hero table and the directory
listings (tournament name with its files, a file being a name plus its
`load_json` outcome) to the projected site content — or `none` when a
wrong-shape file crashes the run with the uncaught error at line 255.  The
scan sorts tournament names and file names exactly as the script's
`sorted(os.listdir(...))` calls do, keeps only `.json` files and drops
tournaments with no such files. -/
def runPipeline (hs : List RawHero)
    (tourns : List (String × List (String × LoadResult))) :
    Option (List (String × List SeriesOut)) :=
  let hm := buildHeroDict hs
  (tourns.mergeSort strKeyLE).foldlM
    (fun out t =>
      let files := (t.2.filter (fun f => lowerEndsWithJson f.1)).mergeSort strKeyLE
      if files.isEmpty then some out
      else
        ((seriesGroupsOf files).foldlM
          (fun souts g =>
            (processOneSeries hm g.1 g.2).map
              (fun so =>
                match so with
                | none => souts
                | some s => souts ++ [s]))
          ([] : List SeriesOut)).map
          (fun souts => out ++ [(t.1, souts)]))
    []

/-! ### Helper lemmas -/

/-- A dict built by last-write-wins assignments holds, at each key, the value
of the last record in the list carrying that key (and nothing at keys no
record carries). -/
theorem pyDictFold_eq {α β : Type} (key : α → Option Int) (val : α → β)
    (l : List α) (k : Int) :
    pyDictFold key val l k
      = ((l.filter (fun a => decide (key a = some k))).getLast?).map val := by
  induction l using List.reverseRecOn with
  | nil => rfl
  | append_singleton xs x ih =>
    have hstep :
        pyDictFold key val (xs ++ [x])
          = match key x with
            | none => pyDictFold key val xs
            | some k' => Function.update (pyDictFold key val xs) k' (some (val x)) := by
      simp only [pyDictFold, List.foldl_append, List.foldl_cons, List.foldl_nil]
    rw [hstep, List.filter_append]
    cases hk : key x with
    | none =>
      have : List.filter (fun a => decide (key a = some k)) [x] = [] := by
        simp [List.filter, hk]
      simpa [this] using ih
    | some h =>
      by_cases hkk : h = k
      · subst hkk
        have : List.filter (fun a => decide (key a = some h)) [x] = [x] := by
          simp [List.filter, hk]
        simp [this, Function.update_same]
      · have : List.filter (fun a => decide (key a = some k)) [x] = [] := by
          simp [List.filter, hk, hkk]
        simpa [this, Function.update_noteq (Ne.symm hkk)] using ih

/-- Matching a one-character pattern at the head of a non-empty list is just
an equality test on the head. -/
theorem isPrefixOf_single (c d : Char) (l : List Char) :
    List.isPrefixOf [c] (d :: l) = (c == d) := by
  simp [List.isPrefixOf]

/-- With enough fuel, replacing every underscore by a space leaves no
underscore behind. -/
theorem replaceAllFuel_no_underscore :
    ∀ (n : Nat) (s : List Char), s.length ≤ n →
      '_' ∉ replaceAllFuel ['_'] [' '] n s := by
  intro n
  induction n with
  | zero =>
    intro s hs
    have hnil : s = [] := List.length_eq_zero.mp (Nat.le_zero.mp hs)
    subst hnil
    simp [replaceAllFuel]
  | succ n ih =>
    intro s hs
    match s with
    | [] => simp [replaceAllFuel]
    | c :: rest =>
      have hl : rest.length ≤ n := Nat.le_of_succ_le_succ (by simpa using hs)
      rw [replaceAllFuel, isPrefixOf_single]
      by_cases hc : ('_' == c) = true
      · rw [if_pos hc]
        intro hmem
        simp at hmem
        exact ih rest hl hmem
      · rw [if_neg hc]
        intro hmem
        rcases List.mem_cons.mp hmem with h1 | h2
        · exact hc (beq_iff_eq.mpr h1)
        · exact ih rest hl h2

/-- The position of the first occurrence of `k` in a list of names (the
list's length when `k` is absent). -/
def firstOccIdx (k : String) : List String → Nat
  | [] => 0
  | w :: ws => if w = k then 0 else firstOccIdx k ws + 1

theorem firstOccIdx_lt_length {k : String} {l : List String} (h : k ∈ l) :
    firstOccIdx k l < l.length := by
  induction l with
  | nil => cases h
  | cons w ws ih =>
    by_cases hw : w = k
    · simp [firstOccIdx, hw]
    · have hmem : k ∈ ws := by
        rcases List.mem_cons.mp h with h1 | h2
        · exact absurd h1.symm hw
        · exact h2
      simp only [firstOccIdx, if_neg hw, List.length_cons]
      exact Nat.succ_lt_succ (ih hmem)

theorem firstOccIdx_append_of_mem {k : String} {l : List String}
    (t : List String) (h : k ∈ l) : firstOccIdx k (l ++ t) = firstOccIdx k l := by
  induction l with
  | nil => cases h
  | cons w ws ih =>
    by_cases hw : w = k
    · simp [firstOccIdx, hw]
    · have hmem : k ∈ ws := by
        rcases List.mem_cons.mp h with h1 | h2
        · exact absurd h1.symm hw
        · exact h2
      simp [firstOccIdx, hw, ih hmem]

theorem firstOccIdx_append_self {k : String} {l : List String} (h : k ∉ l) :
    firstOccIdx k (l ++ [k]) = l.length := by
  induction l with
  | nil => simp [firstOccIdx]
  | cons w ws ih =>
    have hw : w ≠ k := by
      intro he
      exact h (by rw [he]; exact List.mem_cons_self k ws)
    have hmem : k ∉ ws := fun hm => h (List.mem_cons_of_mem w hm)
    simp [firstOccIdx, hw, ih hmem]

/-- Invariant tying `winner_counter` to the list of winner names tallied so
far: every entry carries the exact occurrence count of its key, the keys are
exactly the names seen, and entries appear in order of their key's first
occurrence. -/
def CounterInv (ws : List String) (c : List (String × Nat)) : Prop :=
  (∀ e ∈ c, e.2 = ws.count e.1) ∧
  (∀ k : String, (∃ e ∈ c, e.1 = k) ↔ k ∈ ws) ∧
  c.Pairwise (fun a b => firstOccIdx a.1 ws < firstOccIdx b.1 ws)

theorem counterInv_bump {ws : List String} {c : List (String × Nat)} (k : String)
    (hinv : CounterInv ws c) : CounterInv (ws ++ [k]) (bump c k) := by
  obtain ⟨hcount, hkeys, horder⟩ := hinv
  have hkeymem : ∀ e ∈ c, e.1 ∈ ws := fun e he => (hkeys e.1).mp ⟨e, he, rfl⟩
  by_cases hmem : c.any (fun e => e.1 == k)
  · have hkws : k ∈ ws := by
      rcases List.any_eq_true.mp hmem with ⟨e, he, heq⟩
      exact (beq_iff_eq.mp heq) ▸ hkeymem e he
    have hbump :
        bump c k = c.map (fun e => if e.1 = k then (e.1, e.2 + 1) else e) := by
      rw [bump, if_pos hmem]
    have hupdfst :
        ∀ e : String × Nat, (if e.1 = k then (e.1, e.2 + 1) else e).1 = e.1 := by
      intro e
      by_cases he : e.1 = k <;> simp [he]
    rw [hbump]
    refine ⟨?_, ?_, ?_⟩
    · intro e' he'
      rcases List.mem_map.mp he' with ⟨e, he, hupd⟩
      by_cases hek : e.1 = k
      · rw [← hupd, if_pos hek]
        have hc1 : (ws ++ [k]).count e.1 = ws.count e.1 + 1 := by
          rw [List.count_append, hek]
          simp
        show e.2 + 1 = (ws ++ [k]).count e.1
        rw [hc1, hcount e he]
      · rw [← hupd, if_neg hek]
        have h0 : [k].count e.1 = 0 := by simp [hek]
        rw [List.count_append, h0, hcount e he]
        omega
    · intro k'
      constructor
      · rintro ⟨e', he', rfl⟩
        rcases List.mem_map.mp he' with ⟨e, he, hupd⟩
        rw [← hupd, hupdfst e]
        exact List.mem_append_left _ (hkeymem e he)
      · intro hk'
        rcases List.mem_append.mp hk' with h1 | h2
        · rcases (hkeys k').mpr h1 with ⟨e, he, heq⟩
          exact ⟨_, List.mem_map_of_mem _ he, by rw [hupdfst e]; exact heq⟩
        · have hk : k' = k := List.mem_singleton.mp h2
          subst hk
          rcases (hkeys k').mpr hkws with ⟨e, he, heq⟩
          exact ⟨_, List.mem_map_of_mem _ he, by rw [hupdfst e]; exact heq⟩
    · rw [List.pairwise_map]
      refine List.Pairwise.imp_of_mem ?_ horder
      intro a b ha hb hab
      rw [hupdfst a, hupdfst b,
        firstOccIdx_append_of_mem _ (hkeymem a ha),
        firstOccIdx_append_of_mem _ (hkeymem b hb)]
      exact hab
  · have hknotin : k ∉ ws := by
      intro hkws
      rcases (hkeys k).mpr hkws with ⟨e, he, heq⟩
      exact hmem (List.any_eq_true.mpr ⟨e, he, beq_iff_eq.mpr heq⟩)
    have hbump : bump c k = c ++ [(k, 1)] := by rw [bump, if_neg hmem]
    rw [hbump]
    refine ⟨?_, ?_, ?_⟩
    · intro e he
      rcases List.mem_append.mp he with hec | hek
      · have hne : e.1 ≠ k := fun h => hknotin (h ▸ hkeymem e hec)
        have h0 : [k].count e.1 = 0 := by simp [hne]
        rw [List.count_append, h0, hcount e hec]
        omega
      · have hek' : e = (k, 1) := List.mem_singleton.mp hek
        subst hek'
        rw [List.count_append]
        have h0 : ws.count k = 0 := List.count_eq_zero_of_not_mem hknotin
        simp [h0]
    · intro k'
      constructor
      · rintro ⟨e, he, rfl⟩
        rcases List.mem_append.mp he with hec | hek
        · exact List.mem_append_left _ (hkeymem e hec)
        · have hek' : e = (k, 1) := List.mem_singleton.mp hek
          rw [hek']
          exact List.mem_append_right _ (List.mem_singleton_self k)
      · intro hk'
        rcases List.mem_append.mp hk' with h1 | h2
        · rcases (hkeys k').mpr h1 with ⟨e, he, heq⟩
          exact ⟨e, List.mem_append_left _ he, heq⟩
        · have hk : k' = k := List.mem_singleton.mp h2
          subst hk
          exact ⟨(k', 1), List.mem_append_right _ (List.mem_singleton_self _), rfl⟩
    · rw [List.pairwise_append]
      refine ⟨?_, ?_, ?_⟩
      · refine List.Pairwise.imp_of_mem ?_ horder
        intro a b ha hb hab
        rw [firstOccIdx_append_of_mem _ (hkeymem a ha),
          firstOccIdx_append_of_mem _ (hkeymem b hb)]
        exact hab
      · simp
      · intro a ha b hb
        have hb' : b = (k, 1) := List.mem_singleton.mp hb
        subst hb'
        rw [firstOccIdx_append_of_mem _ (hkeymem a ha),
          firstOccIdx_append_self hknotin]
        exact firstOccIdx_lt_length (hkeymem a ha)

theorem buildCounter_inv (ws : List String) : CounterInv ws (buildCounter ws) := by
  induction ws using List.reverseRecOn with
  | nil => exact ⟨by simp [buildCounter], by simp [buildCounter], by simp [buildCounter]⟩
  | append_singleton xs x ih =>
    have hfold : buildCounter (xs ++ [x]) = bump (buildCounter xs) x := by
      simp [buildCounter, List.foldl_append]
    rw [hfold]
    exact counterInv_bump x ih

/-- Python's `max` over the counter items: the result splits the list into a
strictly smaller part before it and a no-greater part after it (so ties are
resolved toward the earliest item). -/
theorem pyMax_split (x : String × Nat) (xs : List (String × Nat)) :
    ∃ m pre post,
      pyMax (x :: xs) = some m ∧ x :: xs = pre ++ m :: post ∧
        (∀ e ∈ pre, e.2 < m.2) ∧ (∀ e ∈ post, e.2 ≤ m.2) := by
  induction xs generalizing x with
  | nil => exact ⟨x, [], [], rfl, rfl, by simp, by simp⟩
  | cons y ys ih =>
    by_cases hxy : x.2 < y.2
    · obtain ⟨m, pre, post, hmax, hsplit, hpre, hpost⟩ := ih y
      have hpymax : pyMax (x :: y :: ys) = some m := by
        simp only [pyMax, List.foldl_cons] at hmax ⊢
        rw [if_pos hxy]
        exact hmax
      have hym : y.2 ≤ m.2 := by
        cases pre with
        | nil =>
          simp only [List.nil_append] at hsplit
          injection hsplit with h1 h2
          exact le_of_eq (congrArg Prod.snd h1)
        | cons p pre' =>
          simp only [List.cons_append] at hsplit
          injection hsplit with h1 h2
          have := hpre p (List.mem_cons_self p pre')
          rw [← h1] at this
          exact le_of_lt this
      refine ⟨m, x :: pre, post, hpymax, ?_, ?_, hpost⟩
      · rw [List.cons_append]
        exact congrArg (List.cons x) hsplit
      · intro e he
        rcases List.mem_cons.mp he with rfl | hein
        · exact lt_of_lt_of_le hxy hym
        · exact hpre e hein
    · obtain ⟨m, pre, post, hmax, hsplit, hpre, hpost⟩ := ih x
      have hpymax : pyMax (x :: y :: ys) = some m := by
        simp only [pyMax, List.foldl_cons] at hmax ⊢
        rw [if_neg hxy]
        exact hmax
      have hyx : y.2 ≤ x.2 := Nat.le_of_not_lt hxy
      cases pre with
      | nil =>
        simp only [List.nil_append] at hsplit
        injection hsplit with h1 h2
        refine ⟨m, [], y :: post, hpymax, ?_, by simp, ?_⟩
        · simp only [List.nil_append]
          rw [← h1, ← h2]
        · intro e he
          rcases List.mem_cons.mp he with rfl | hein
          · exact hyx.trans (le_of_eq (congrArg Prod.snd h1))
          · exact hpost e hein
      | cons p pre' =>
        simp only [List.cons_append] at hsplit
        injection hsplit with h1 h2
        have hxm : x.2 < m.2 := by
          have := hpre p (List.mem_cons_self p pre')
          rw [← h1] at this
          exact this
        refine ⟨m, x :: y :: pre', post, hpymax, ?_, ?_, hpost⟩
        · simp [h2]
        · intro e he
          rcases List.mem_cons.mp he with rfl | he2
          · exact hxm
          · rcases List.mem_cons.mp he2 with rfl | he3
            · exact lt_of_le_of_lt hyx hxm
            · exact hpre e (List.mem_cons_of_mem p he3)

/-! ### Claims -/

/-- C8: for every raw match record, the players mapping is built by scanning
the raw player list in order, keeping only entries with a non-null
`hero_id`; at every key it holds the stats of the LAST entry carrying that
hero id (later entries silently overwrite earlier ones), and the
construction is total (never raises). -/
theorem player_map_last_occurrence (ps : List RawPlayer) (k : Int) :
    buildPlayerMap ps k
      = ((ps.filter (fun p => decide (p.hero_id = some k))).getLast?).map mkStats :=
  pyDictFold_eq (fun p : RawPlayer => p.hero_id) mkStats ps k

/-- C3 counterexample: for hero id 7, absent from the (empty) hero table,
the display name is exactly the fixed string "Unknown"; the numeric id is
not embedded in it, contrary to the claim. -/
theorem unknown_hero_no_embedded_id :
    display_name [] 7 = "Unknown" ∧ ¬ ("7".data <:+: (display_name [] 7).data) := by
  exact ⟨rfl, by decide⟩

/-- C3 amended: for every hero id not present in the hero table, the lookup
never raises; `display_name` returns the fixed non-empty fallback string
"Unknown" (without the numeric id embedded) and `icon_path` returns the
empty string. -/
theorem unknown_hero_lookup_defaults (hs : List RawHero) (hid : Int)
    (h : ∀ rh ∈ hs, rh.id ≠ hid) :
    display_name hs hid = "Unknown" ∧ display_name hs hid ≠ "" ∧
      icon_path hs hid = "" := by
  have hnone : buildHeroDict hs hid = none := by
    rw [buildHeroDict, pyDictFold_eq]
    simpa using h
  refine ⟨?_, ?_, ?_⟩ <;>
    simp [display_name, icon_path, heroInfo, hnone, defaultHeroEntry]

/-- A one-row hero table used in concrete checks. -/
def axeHero : RawHero :=
  { id := 1, name := some "npc_dota_hero_axe", localized_name := some "Axe",
    localized := none }

/-- Concrete instance of `unknown_hero_lookup_defaults`: id 7 is not in the
one-row table, and the lookups yield the documented defaults. -/
theorem unknown_hero_lookup_defaults_witness :
    (∀ rh ∈ [axeHero], rh.id ≠ (7 : Int)) ∧
      (display_name [axeHero] 7 = "Unknown" ∧ display_name [axeHero] 7 ≠ "" ∧
        icon_path [axeHero] 7 = "") :=
  ⟨by decide, unknown_hero_lookup_defaults [axeHero] 7 (by decide)⟩

/-- C2 counterexample: on the body "TeamA_vs_TeamB_2024" the script replaces
the `_vs_` token AND the remaining plain underscore (cumulative), while the
claimed first-match-wins policy would stop after the `_vs_` replacement and
leave "TeamB_2024" untouched. -/
theorem pretty_name_not_first_match_wins :
    pretty_team_name_from_body "TeamA_vs_TeamB_2024" = "TeamA vs TeamB 2024" ∧
    specPrettyFirstMatchWins "TeamA_vs_TeamB_2024" = "TeamA vs TeamB_2024" ∧
    pretty_team_name_from_body "TeamA_vs_TeamB_2024"
      ≠ specPrettyFirstMatchWins "TeamA_vs_TeamB_2024" := by
  refine ⟨rfl, rfl, by decide⟩

/-- C2 amended: the label is derived by applying the four substitutions in
sequence (`_vs_`, then `_VS_`, then `_v_`, then plain `_`), each applied
cumulatively to the result of the previous one and replacing all of its
occurrences; in particular every underscore is eventually substituted, so
the resulting label contains no underscore at all. -/
theorem pretty_name_cumulative (body : String) :
    pretty_team_name_from_body body
      = strReplace (strReplace (strReplace (strReplace body "_vs_" " vs ")
          "_VS_" " vs ") "_v_" " v ") "_" " " ∧
    '_' ∉ (pretty_team_name_from_body body).data := by
  refine ⟨rfl, ?_⟩
  exact replaceAllFuel_no_underscore _ _ le_rfl

/-- C4: the resolver maps "1.1_TeamA_vs_TeamB_G2.json" under tournament
"TI2024" to the identity (tournament "TI2024", series key
"1.TeamA_vs_TeamB", game 2), and "readme.json" (no `_G<digits>` suffix)
does not match: it resolves to nothing and grouping a listing containing
only it yields no series, with no error raised. -/
theorem identity_parsing :
    resolveFilename "TI2024" "1.1_TeamA_vs_TeamB_G2.json"
        = some ⟨"TI2024", "1.TeamA_vs_TeamB", 2⟩ ∧
    resolveFilename "TI2024" "readme.json" = none ∧
    seriesGroupsOf [("readme.json", (none : Option RawMatch))] = [] := by
  refine ⟨rfl, rfl, rfl⟩

/-- C9: the pipeline is deterministic.  The embedding makes every output a
pure function of the hero table and the directory listings: the script
derives all content from `sorted` directory listings and file contents
(both part of the modelled input, a file's `load_json` outcome included)
and reads no clock, randomness or other ambient state, so running the full
transform twice on the same inputs yields identical view models — and the
same crash, when a wrong-shape file aborts the run. -/
theorem pipeline_deterministic (hs : List RawHero)
    (tourns : List (String × List (String × LoadResult))) :
    runPipeline hs tourns = runPipeline hs tourns :=
  rfl

/-- C7: the projected table has exactly `max L1 L2` rows; in every row
beyond the shorter side's length, the shorter side's cell is empty
(`none`), while the longer side's entry for that position is shown. -/
theorem rows_padding (ls rs : List (Int × CellC)) :
    (buildRows ls rs).length = Nat.max ls.length rs.length ∧
    (∀ i : Nat, rs.length ≤ i → i < ls.length →
        (buildRows ls rs)[i]? = some ((ls[i]?).map Prod.snd, none)) ∧
    (∀ i : Nat, ls.length ≤ i → i < rs.length →
        (buildRows ls rs)[i]? = some (none, (rs[i]?).map Prod.snd)) := by
  refine ⟨by simp [buildRows], ?_, ?_⟩
  · intro i h2 h1
    have hi : i < Nat.max ls.length rs.length :=
      lt_of_lt_of_le h1 (Nat.le_max_left _ _)
    simp [buildRows, List.getElem?_range hi, List.getElem?_eq_none h2]
  · intro i h1 h2
    have hi : i < Nat.max ls.length rs.length :=
      lt_of_lt_of_le h2 (Nat.le_max_right _ _)
    simp [buildRows, List.getElem?_range hi, List.getElem?_eq_none h1]

/-- A plain cell record used in concrete checks. -/
def cellW : Int × CellC :=
  (0, { order_num := 1, is_pick := false, hero_local := "Unknown",
        hero_clean := "", player := none })

/-- Concrete instance of `rows_padding`: 5 first-side entries against 3
second-side entries give exactly 5 rows, and row 4 (0-based) has an empty
second-side cell. -/
theorem rows_padding_witness :
    (buildRows (List.replicate 5 cellW) (List.replicate 3 cellW)).length
        = Nat.max (List.replicate 5 cellW).length (List.replicate 3 cellW).length ∧
      (buildRows (List.replicate 5 cellW) (List.replicate 3 cellW))[4]?
        = some (((List.replicate 5 cellW)[4]?).map Prod.snd, none) :=
  ⟨(rows_padding (List.replicate 5 cellW) (List.replicate 3 cellW)).1,
    (rows_padding (List.replicate 5 cellW) (List.replicate 3 cellW)).2.1 4
      (by decide) (by decide)⟩

/-- Folding the side-partition loop from any accumulator pair appends the
cells of team-0 items to the first component and the rest to the second. -/
theorem sideFold_spec (hm : Int → Option HeroEntry) (pm : Int → Option PStats)
    (pbs : List RawPickBan) :
    ∀ acc : List (Int × CellC) × List (Int × CellC),
      pbs.foldl
        (fun acc it =>
          if it.team.getD 0 = 0 then (acc.1 ++ [mkCell hm pm it], acc.2)
          else (acc.1, acc.2 ++ [mkCell hm pm it])) acc
        = (acc.1 ++ (pbs.filter (fun it => decide (it.team.getD 0 = 0))).map (mkCell hm pm),
           acc.2 ++ (pbs.filter (fun it => !decide (it.team.getD 0 = 0))).map (mkCell hm pm)) := by
  induction pbs with
  | nil => intro acc; simp
  | cons p ps ih =>
    intro acc
    by_cases hp : p.team.getD 0 = 0
    · simp [List.filter_cons, hp, ih, List.append_assoc]
    · simp [List.filter_cons, hp, ih, List.append_assoc]

/-- C10 amended: the side partition is total and two-valued; an entry goes
to the first (radiant) side iff its `team` field DEFAULTS to 0 — that is,
`team` is 0 or absent — and to the second side for every other value; no
entry is dropped, the two sides together holding exactly the entries of the
list. -/
theorem side_partition_total (hm : Int → Option HeroEntry)
    (pm : Int → Option PStats) (pbs : List RawPickBan) :
    (sideSplit hm pm pbs).1
        = (pbs.filter (fun it => decide (it.team.getD 0 = 0))).map (mkCell hm pm)
      ∧ (sideSplit hm pm pbs).2
        = (pbs.filter (fun it => !decide (it.team.getD 0 = 0))).map (mkCell hm pm)
      ∧ (sideSplit hm pm pbs).1.length + (sideSplit hm pm pbs).2.length
        = pbs.length := by
  have h := sideFold_spec hm pm pbs ([], [])
  have h1 : (sideSplit hm pm pbs).1
      = (pbs.filter (fun it => decide (it.team.getD 0 = 0))).map (mkCell hm pm) := by
    rw [sideSplit, h]; simp
  have h2 : (sideSplit hm pm pbs).2
      = (pbs.filter (fun it => !decide (it.team.getD 0 = 0))).map (mkCell hm pm) := by
    rw [sideSplit, h]; simp
  refine ⟨h1, h2, ?_⟩
  rw [h1, h2]
  simpa [List.length_append] using
    (List.filter_append_perm (fun it => decide (it.team.getD 0 = 0)) pbs).length_eq

/-- C5: for every parsed match, the draft sequence is already sorted by
`order` — re-sorting it is a no-op — and, under the data-model invariant
that `order` values are unique within a match, the `order` values of the
parsed sequence are strictly increasing. -/
theorem draft_order_invariant (d : RawMatch)
    (h : (d.picks_bans.map orderKey).Nodup) :
    (sortedPicksBans d).mergeSort pbLE = sortedPicksBans d ∧
    ((sortedPicksBans d).map orderKey).Pairwise (fun a b => a < b) := by
  have htrans : ∀ a b c : RawPickBan, pbLE a b → pbLE b c → pbLE a c := by
    intro a b c hab hbc
    simp only [pbLE, decide_eq_true_eq] at *
    omega
  have htotal : ∀ a b : RawPickBan, pbLE a b || pbLE b a := by
    intro a b
    simp only [pbLE, Bool.or_eq_true, decide_eq_true_eq]
    omega
  have hsorted : (sortedPicksBans d).Pairwise (fun a b => pbLE a b) :=
    List.sorted_mergeSort htrans htotal d.picks_bans
  refine ⟨List.mergeSort_of_sorted hsorted, ?_⟩
  have hperm : List.Perm (sortedPicksBans d) d.picks_bans :=
    List.mergeSort_perm d.picks_bans pbLE
  have hnodup : ((sortedPicksBans d).map orderKey).Nodup :=
    ((hperm.map orderKey).nodup_iff).mpr h
  have hle : ((sortedPicksBans d).map orderKey).Pairwise (fun a b => a ≤ b) := by
    rw [List.pairwise_map]
    exact List.Pairwise.imp
      (fun hab => by simpa [pbLE, decide_eq_true_eq] using hab) hsorted
  exact (hle.and hnodup).imp (fun hab => lt_of_le_of_ne hab.1 hab.2)

/-- A match with three pick/ban entries carrying distinct orders. -/
def draftMatch : RawMatch :=
  { radiant_team := some (some "TeamA"), dire_team := some (some "TeamB"),
    radiant_win := some true,
    players := [],
    picks_bans :=
      [ { order := some 2, is_pick := some true, team := some 0, hero_id := some 10 },
        { order := some 0, is_pick := some false, team := some 1, hero_id := some 11 },
        { order := some 1, is_pick := some true, team := some 1, hero_id := some 12 } ] }

/-- Concrete instance of `draft_order_invariant` on `draftMatch`. -/
theorem draft_order_invariant_witness :
    (draftMatch.picks_bans.map orderKey).Nodup ∧
      ((sortedPicksBans draftMatch).mergeSort pbLE = sortedPicksBans draftMatch ∧
        ((sortedPicksBans draftMatch).map orderKey).Pairwise (fun a b => a < b)) :=
  ⟨by decide, draft_order_invariant draftMatch (by decide)⟩

/-- C1: for every non-empty series, the computed series winner is a name
from the per-game winners list `ws` (the games scanned in ascending
game-number order, as `processSeries` receives them) with the maximal
number of per-game wins, and among the names tied at that maximal count it
is the one whose first win occurs earliest in the scan (`firstOccIdx`),
not the alphabetically least. -/
theorem series_winner_majority (metas : List Meta) (ws : List String)
    (hws : ws = metas.map (fun me => me.game_winner)) (hne : metas ≠ []) :
    ∃ w, seriesWinner metas = some w ∧ w ∈ ws ∧
      (∀ k ∈ ws, ws.count k ≤ ws.count w) ∧
      (∀ k ∈ ws, ws.count k = ws.count w → firstOccIdx w ws ≤ firstOccIdx k ws) := by
  obtain ⟨hcount, hkeys, horder⟩ := buildCounter_inv ws
  have hwsne : ws ≠ [] := by
    rw [hws]
    intro h
    exact hne (List.map_eq_nil_iff.mp h)
  obtain ⟨k0, hk0⟩ := List.exists_mem_of_ne_nil _ hwsne
  obtain ⟨e0, he0c, -⟩ := (hkeys k0).mpr hk0
  have hcne : buildCounter ws ≠ [] := List.ne_nil_of_mem he0c
  obtain ⟨ehd, ctl, hc⟩ := List.exists_cons_of_ne_nil hcne
  obtain ⟨m, pre, post, hmax, hsplit, hpre, hpost⟩ := pyMax_split ehd ctl
  have hcdec : buildCounter ws = pre ++ m :: post := by rw [hc, hsplit]
  have hwinner : seriesWinner metas = some m.1 := by
    rw [seriesWinner, winnerFromCounts, ← hws, hc, hmax]
    rfl
  have hmc : m ∈ buildCounter ws := by
    rw [hcdec]
    exact List.mem_append_right _ (List.mem_cons_self _ _)
  have hmcount : m.2 = ws.count m.1 := hcount m hmc
  have hmem_le : ∀ e ∈ buildCounter ws, e.2 ≤ m.2 := by
    intro e he
    rw [hcdec] at he
    rcases List.mem_append.mp he with h1 | h2
    · exact le_of_lt (hpre e h1)
    · rcases List.mem_cons.mp h2 with rfl | h3
      · exact le_refl _
      · exact hpost e h3
  refine ⟨m.1, hwinner, (hkeys m.1).mp ⟨m, hmc, rfl⟩, ?_, ?_⟩
  · intro k hk
    obtain ⟨e, hec, hek⟩ := (hkeys k).mpr hk
    calc ws.count k = e.2 := by rw [hcount e hec, hek]
      _ ≤ m.2 := hmem_le e hec
      _ = ws.count m.1 := hmcount
  · intro k hk hcnt
    obtain ⟨e, hec, hek⟩ := (hkeys k).mpr hk
    have hecount : e.2 = m.2 := by
      rw [hcount e hec, hek, hcnt, ← hmcount]
    rw [hcdec] at hec
    rcases List.mem_append.mp hec with h1 | h2
    · exact absurd hecount (Nat.ne_of_lt (hpre e h1))
    · rcases List.mem_cons.mp h2 with rfl | h3
      · exact le_of_eq (by rw [hek])
      · have hR : firstOccIdx m.1 ws < firstOccIdx e.1 ws := by
          rw [hcdec] at horder
          have hp := (List.pairwise_append.mp horder).2.1
          exact List.rel_of_pairwise_cons hp h3
        rw [← hek]
        exact le_of_lt hR

/-- A game won by the radiant side "A". -/
def gameWonByA : RawMatch :=
  { radiant_team := some (some "A"), dire_team := some (some "B"),
    radiant_win := some true, players := [], picks_bans := [] }

/-- A game won by the dire side "B". -/
def gameWonByB : RawMatch :=
  { radiant_team := some (some "A"), dire_team := some (some "B"),
    radiant_win := some false, players := [], picks_bans := [] }

/-- A three-game series: "A" wins games 1 and 3, "B" wins game 2. -/
def metasW : List Meta :=
  [ ⟨1, gameWonByA, winnerOf gameWonByA, radiantWin gameWonByA⟩,
    ⟨2, gameWonByB, winnerOf gameWonByB, radiantWin gameWonByB⟩,
    ⟨3, gameWonByA, winnerOf gameWonByA, radiantWin gameWonByA⟩ ]

/-- Concrete instance of `series_winner_majority`: winners A, B, A give
series winner "A", with the majority and tie-break properties attached. -/
theorem series_winner_majority_witness :
    (["A", "B", "A"] = metasW.map (fun me => me.game_winner)) ∧ metasW ≠ [] ∧
      seriesWinner metasW = some "A" ∧
      (∃ w, seriesWinner metasW = some w ∧ w ∈ ["A", "B", "A"] ∧
        (∀ k ∈ ["A", "B", "A"],
          List.count k ["A", "B", "A"] ≤ List.count w ["A", "B", "A"]) ∧
        (∀ k ∈ ["A", "B", "A"],
          List.count k ["A", "B", "A"] = List.count w ["A", "B", "A"] →
            firstOccIdx w ["A", "B", "A"] ≤ firstOccIdx k ["A", "B", "A"])) :=
  ⟨by decide, by decide, by decide,
    series_winner_majority metasW ["A", "B", "A"] (by decide) (by decide)⟩

unseal String.ltb List.merge List.mergeSort in
/-- C6: the claim restates the spec's skip-and-continue policy (spec 4.2
and 7: a record that cannot be parsed as the expected structure — "top-level
shape invalid" included — is skipped with one diagnostic and processing
continues), and the code violates it on exactly that case, so the claim is
the intent and the code has a bug.  A file whose JSON parses to a non-object
top level (for example a list) returns normally from `load_json`, escapes
the `except` at lines 252-254, and crashes uncaught at line 255
(`AttributeError` on `data.get`), aborting the entire run.  Evaluated at
the failing input — game 1 a valid record, game 2 valid JSON of the wrong
shape — the series loop yields no batch result at all (`none`), and the
whole-run output is likewise `none`, instead of the claimed N−K = 1
summaries with K = 1 diagnostics; the same batch with the wrong-shape file
replaced by a caught load failure (unreadable file or invalid JSON text)
does yield exactly 1 summary and 1 diagnostic. -/
theorem skip_and_continue_code_bug :
    processSeries [(1, LoadResult.record gameWonByA), (2, LoadResult.wrongShape)]
        = none ∧
      runPipeline []
          [("TI2024",
            [("1.1_A_vs_B_G1.json", LoadResult.record gameWonByA),
             ("1.1_A_vs_B_G2.json", LoadResult.wrongShape)])]
        = none ∧
      processSeries [(1, LoadResult.record gameWonByA), (2, LoadResult.failed)]
        = some ([⟨1, gameWonByA, winnerOf gameWonByA, radiantWin gameWonByA⟩], 1) := by
  refine ⟨rfl, ?_, rfl⟩
  rfl

/-- The pick/ban entry with every field absent (in particular no `team`). -/
def pbAllAbsent : RawPickBan :=
  { order := none, is_pick := none, team := none, hero_id := none }

/-- C10 counterexample: an entry whose `team` field is ABSENT is placed on
the first (radiant) side, because `item.get("team", 0)` defaults it to 0 —
the claim instead places every entry whose `team` field does not equal 0,
absent included, on the second side. -/
theorem side_absent_team_on_first_side :
    pbAllAbsent.team ≠ some 0 ∧
      (sideSplit (buildHeroDict []) (buildPlayerMap []) [pbAllAbsent]).1.length = 1 ∧
      (sideSplit (buildHeroDict []) (buildPlayerMap []) [pbAllAbsent]).2 = [] := by
  refine ⟨by decide, rfl, rfl⟩

end GenPages
